import Mathlib

/-!
Verification development for the `position-rank` repository's `tokenizer.py`.

The file embeds the two tokenizer classes as pure Lean functions:

* `StanfordCoreNlpTokenizer.tokenize` (EN) and `SudachiTokenizer.tokenize`
  (JA) both classify each token's POS tag into a three-letter alphabet
  (source: `J`/`N`/`O` for English, `形`/`名`/`他` for Japanese), run the
  regular expression `J*N+` (resp. `形*名+`) with `re.finditer` over the
  joined classification string, slice the token list at each match span,
  keep spans of at most 3 tokens, and join each kept span with `_`.
* The external taggers are out of scope: the embedding takes their output,
  an ordered list of `(surface text, POS tag)` pairs, as input.
* `re.finditer` (leftmost, non-overlapping, greedy matching of `J*N+`) is
  embedded as `finditer` below: at each scan position the greedy match of
  `J*N+` takes the maximal run of `J`s followed by the maximal run of `N`s
  (backtracking can never help for this pattern, since giving back a `J`
  leaves a `J` where an `N` is required); on failure the scan advances one
  position, on success it resumes at the match end.
-/

/-- The three-symbol alphabet produced by `_anonymize_pos`.
`J`/`N`/`O` also stand for the Japanese tokenizer's `形`/`名`/`他`. -/
inductive PosSymbol where
  | J : PosSymbol
  | N : PosSymbol
  | O : PosSymbol
deriving DecidableEq, Repr

/-- `StanfordCoreNlpTokenizer._anonymize_pos` (tokenizer.py lines 53-63). -/
def anonymize_pos_en (pos : String) : PosSymbol :=
  if pos = "JJ" ∨ pos = "JJR" ∨ pos = "JJS" then PosSymbol.J
  else if pos = "NN" ∨ pos = "NNS" ∨ pos = "NNP" ∨ pos = "NNPS" then PosSymbol.N
  else PosSymbol.O

/-- `SudachiTokenizer._anonymize_pos` (tokenizer.py lines 119-129),
with `形` rendered as `PosSymbol.J`, `名` as `PosSymbol.N`, `他` as `PosSymbol.O`. -/
def anonymize_pos_ja (pos : String) : PosSymbol :=
  if pos = "形容詞" then PosSymbol.J
  else if pos = "名詞" then PosSymbol.N
  else PosSymbol.O

/-- `pos_tags = [self._anonymize_pos(token[1]) for token in tokens]`
(tokenizer.py line 46). -/
def classify_en (tokens : List (String × String)) : List PosSymbol :=
  tokens.map (fun token => anonymize_pos_en token.2)

/-- `pos_tags = [self._anonymize_pos(token[1]) for token in tokens]`
(tokenizer.py line 111). -/
def classify_ja (tokens : List (String × String)) : List PosSymbol :=
  tokens.map (fun token => anonymize_pos_ja token.2)

/-- Length of the maximal run of `J` symbols at the head of the sequence:
what the greedy `J*` consumes. -/
def runJ : List PosSymbol → Nat
  | [] => 0
  | c :: rest => if c = PosSymbol.J then runJ rest + 1 else 0

/-- Length of the maximal run of `N` symbols at the head of the sequence:
what the greedy `N+` consumes. -/
def runN : List PosSymbol → Nat
  | [] => 0
  | c :: rest => if c = PosSymbol.N then runN rest + 1 else 0

/-- The regex `J*N+` attempted at the head of `s`: greedily consume `J`s,
then at least one `N`; `some len` is the length of the (unique maximal)
match, `none` means the pattern does not match here. -/
def matchLen (s : List PosSymbol) : Option Nat :=
  let j := runJ s
  let n := runN (s.drop j)
  if n = 0 then none else some (j + n)

/-- The scan loop of `re.finditer(r"J*N+", ...)`: try a match at the
current position `i`; on failure move one symbol right, on success emit
the span `(i, i + len)` and resume at the match end.  The `fuel`
argument only bounds the recursion; every step consumes at least one
symbol, so `fuel = s.length` (as used by `finditer`) is always enough. -/
def finditerAux : Nat → List PosSymbol → Nat → List (Nat × Nat)
  | 0, _, _ => []
  | _ + 1, [], _ => []
  | fuel + 1, c :: rest, i =>
    match matchLen (c :: rest) with
    | none => finditerAux fuel rest (i + 1)
    | some len => (i, i + len) :: finditerAux fuel ((c :: rest).drop len) (i + len)

/-- `re.finditer(pattern, "".join(pos_tags))` rendered as the list of
match spans `(start, end)` (tokenizer.py lines 47-48 and 112-113). -/
def finditer (syms : List PosSymbol) : List (Nat × Nat) :=
  finditerAux syms.length syms 0

/-- `[token[0] for token in tokens[match.start():match.end()]]`:
the texts of the tokens in a match span (tokenizer.py lines 49 and 114). -/
def sliceTexts (tokens : List (String × String)) (sp : Nat × Nat) : List String :=
  ((tokens.drop sp.1).take (sp.2 - sp.1)).map (fun token => token.1)

/-- `StanfordCoreNlpTokenizer.tokenize` (tokenizer.py lines 28-51), taking
the external tagger's output `tokens` (the result of
`self.tokenizer.pos_tag(sentence)`) as input. -/
def tokenize_en (tokens : List (String × String)) (pos_filter : List String) :
    List String × List String :=
  let pos_tags := classify_en tokens
  let iter := finditer pos_tags
  let phrases := (iter.map (fun m => sliceTexts tokens m)).filter
    (fun x => decide (x.length ≤ 3))
  let phrases2 := phrases.map (fun phrase => String.intercalate "_" phrase)
  ((tokens.filter (fun token => decide (token.2 ∈ pos_filter))).map (fun token => token.1),
   phrases2)

/-- The morpheme filter inside `SudachiTokenizer.tokenize` (tokenizer.py
lines 108-110): keep a morpheme `(surface, part_of_speech[0])` unless its
surface is `"EOS"`, `"BOS"`, or empty. -/
def sudachi_tokens (morphemes : List (String × String)) : List (String × String) :=
  morphemes.filter (fun morph => decide (¬ ((morph.1 = "EOS" ∨ morph.1 = "BOS") ∨ morph.1 = "")))

/-- `SudachiTokenizer.tokenize` (tokenizer.py lines 91-117), taking the
analyzer's output `morphemes` (pairs of `morph.surface()` and
`morph.part_of_speech()[0]`) as input. -/
def tokenize_ja (morphemes : List (String × String)) (pos_filter : List String) :
    List String × List String :=
  let tokens := sudachi_tokens morphemes
  let pos_tags := classify_ja tokens
  let iter := finditer pos_tags
  let phrases := (iter.map (fun m => sliceTexts tokens m)).filter
    (fun x => decide (x.length ≤ 3))
  let phrases2 := phrases.map (fun phrase => String.intercalate "_" phrase)
  ((tokens.filter (fun token => decide (token.2 ∈ pos_filter))).map (fun token => token.1),
   phrases2)

/-- `sudachipy.tokenizer.Tokenizer.SplitMode`, the external enum assigned
in `SudachiTokenizer.__init__`. -/
inductive SplitMode where
  | A : SplitMode
  | B : SplitMode
  | C : SplitMode
deriving DecidableEq, Repr

/-- The state `SudachiTokenizer.__init__` leaves behind: `none` models the
Python attribute `self.sudachi_mode` never having been assigned. -/
structure SudachiTokenizerState where
  sudachi_mode : Option SplitMode
deriving DecidableEq, Repr

/-- `SudachiTokenizer.__init__` (tokenizer.py lines 76-89): an `if/elif`
chain over `"A"`, `"B"`, `"C"` with no `else` branch, so any other string
falls through and leaves `self.sudachi_mode` unset. -/
def SudachiTokenizer.init (sudachi_mode : String) : SudachiTokenizerState :=
  if sudachi_mode = "A" then ⟨some SplitMode.A⟩
  else if sudachi_mode = "B" then ⟨some SplitMode.B⟩
  else if sudachi_mode = "C" then ⟨some SplitMode.C⟩
  else ⟨none⟩

/-- The Python exception raised when `tokenize` reads the missing
`self.sudachi_mode` attribute. -/
inductive PyError where
  | AttributeError : PyError
deriving DecidableEq, Repr

/-- `SudachiTokenizer.tokenize` as invoked on an instance: the method body
reads `self.sudachi_mode` (tokenizer.py line 109), so on an instance whose
constructor never assigned it, Python raises `AttributeError` before any
tokenization happens; otherwise the call reduces to `tokenize_ja` on the
analyzer's output. -/
def SudachiTokenizer.tokenize_checked (st : SudachiTokenizerState)
    (morphemes : List (String × String)) (pos_filter : List String) :
    Except PyError (List String × List String) :=
  match st.sudachi_mode with
  | none => Except.error PyError.AttributeError
  | some _ => Except.ok (tokenize_ja morphemes pos_filter)

/-- A span `[a, b)` over the symbol sequence `syms` that matches
`J*N+`: a block of `J`s from `a` up to some `j`, then a nonempty block of
`N`s from `j` up to `b`. -/
def MatchSpan (syms : List PosSymbol) (a b : Nat) : Prop :=
  a < b ∧ b ≤ syms.length ∧ ∃ j, a ≤ j ∧ j < b ∧
    (∀ k, a ≤ k → k < j → syms[k]? = some PosSymbol.J) ∧
    (∀ k, j ≤ k → k < b → syms[k]? = some PosSymbol.N)

/-- A prefix of `s` of length `len` that matches `J*N+`. -/
def Matches (s : List PosSymbol) (len : Nat) : Prop :=
  ∃ j, j < len ∧ (∀ k, k < j → s[k]? = some PosSymbol.J) ∧
    (∀ k, j ≤ k → k < len → s[k]? = some PosSymbol.N)

lemma runJ_le_length (s : List PosSymbol) : runJ s ≤ s.length := by
  induction s with
  | nil => simp [runJ]
  | cons c rest ih =>
    simp only [runJ, List.length_cons]
    split <;> omega

lemma runN_le_length (s : List PosSymbol) : runN s ≤ s.length := by
  induction s with
  | nil => simp [runN]
  | cons c rest ih =>
    simp only [runN, List.length_cons]
    split <;> omega

lemma runJ_get (s : List PosSymbol) : ∀ k, k < runJ s → s[k]? = some PosSymbol.J := by
  induction s with
  | nil => intro k h; simp [runJ] at h
  | cons c rest ih =>
    intro k h
    simp only [runJ] at h
    split at h
    · rename_i hc
      cases k with
      | zero => simp [hc]
      | succ k => simpa using ih k (by omega)
    · omega

lemma runN_get (s : List PosSymbol) : ∀ k, k < runN s → s[k]? = some PosSymbol.N := by
  induction s with
  | nil => intro k h; simp [runN] at h
  | cons c rest ih =>
    intro k h
    simp only [runN] at h
    split at h
    · rename_i hc
      cases k with
      | zero => simp [hc]
      | succ k => simpa using ih k (by omega)
    · omega

lemma runJ_nget (s : List PosSymbol) : s[runJ s]? ≠ some PosSymbol.J := by
  induction s with
  | nil => simp [runJ]
  | cons c rest ih =>
    simp only [runJ]
    split
    · simpa using ih
    · rename_i hc
      simp [hc]

lemma runN_nget (s : List PosSymbol) : s[runN s]? ≠ some PosSymbol.N := by
  induction s with
  | nil => simp [runN]
  | cons c rest ih =>
    simp only [runN]
    split
    · simpa using ih
    · rename_i hc
      simp [hc]

lemma matchLen_pos {s : List PosSymbol} {len : Nat} (h : matchLen s = some len) :
    1 ≤ len := by
  simp only [matchLen] at h
  split at h
  · simp at h
  · rename_i hn
    simp only [Option.some.injEq] at h
    omega

lemma matchLen_le_length {s : List PosSymbol} {len : Nat} (h : matchLen s = some len) :
    len ≤ s.length := by
  simp only [matchLen] at h
  split at h
  · simp at h
  · rename_i hn
    have h1 := runJ_le_length s
    have h2 := runN_le_length (s.drop (runJ s))
    simp only [List.length_drop] at h2
    simp only [Option.some.injEq] at h
    omega

lemma matchLen_matches {s : List PosSymbol} {len : Nat} (h : matchLen s = some len) :
    Matches s len := by
  simp only [matchLen] at h
  split at h
  · simp at h
  · rename_i hn
    simp only [Option.some.injEq] at h
    refine ⟨runJ s, by omega, fun k hk => runJ_get s k hk, fun k h1 h2 => ?_⟩
    have h3 := runN_get (s.drop (runJ s)) (k - runJ s) (by omega)
    rwa [List.getElem?_drop, Nat.add_sub_cancel' h1] at h3

lemma matches_matchLen {s : List PosSymbol} {len : Nat} (h : Matches s len) :
    ∃ len2, matchLen s = some len2 ∧ len ≤ len2 := by
  obtain ⟨j, hj, hJ, hN⟩ := h
  have hjr : j = runJ s := by
    rcases Nat.lt_trichotomy j (runJ s) with hlt | heq | hgt
    · have h1 := runJ_get s j hlt
      have h2 := hN j (Nat.le_refl j) hj
      rw [h1] at h2
      simp at h2
    · exact heq
    · have h1 := hJ (runJ s) hgt
      exact absurd h1 (runJ_nget s)
  subst hjr
  have hn0 : runN (s.drop (runJ s)) ≠ 0 := by
    intro h0
    have h1 := hN (runJ s) (Nat.le_refl _) hj
    have h2 := runN_nget (s.drop (runJ s))
    rw [h0, List.getElem?_drop, Nat.add_zero] at h2
    exact h2 h1
  have hle : len - runJ s ≤ runN (s.drop (runJ s)) := by
    by_contra hc
    push_neg at hc
    have h2 := runN_nget (s.drop (runJ s))
    rw [List.getElem?_drop] at h2
    exact h2 (hN (runJ s + runN (s.drop (runJ s))) (by omega) (by omega))
  refine ⟨runJ s + runN (s.drop (runJ s)), ?_, by omega⟩
  simp only [matchLen]
  simp [hn0]

lemma matchLen_none_not_matches {s : List PosSymbol} (h : matchLen s = none)
    {len : Nat} : ¬ Matches s len := by
  intro hm
  obtain ⟨len2, h2, _⟩ := matches_matchLen hm
  rw [h] at h2
  exact Option.noConfusion h2

lemma matchLen_has_noun {s : List PosSymbol} {len : Nat} (h : matchLen s = some len) :
    PosSymbol.N ∈ s := by
  simp only [matchLen] at h
  split at h
  · simp at h
  · rename_i hn
    have h1 := runN_get (s.drop (runJ s)) 0 (by omega)
    rw [List.getElem?_drop, Nat.add_zero] at h1
    have h2 : s[runJ s]? = some PosSymbol.N := h1
    have h3 := List.getElem?_eq_some_iff.mp h2
    obtain ⟨hlt, hget⟩ := h3
    exact hget ▸ List.getElem_mem hlt

lemma finditerAux_zero (s : List PosSymbol) (i : Nat) : finditerAux 0 s i = [] := rfl

lemma finditerAux_nil (fuel i : Nat) : finditerAux fuel [] i = [] := by
  cases fuel <;> rfl

lemma finditerAux_cons (fuel : Nat) (c : PosSymbol) (rest : List PosSymbol) (i : Nat) :
    finditerAux (fuel + 1) (c :: rest) i =
      match matchLen (c :: rest) with
      | none => finditerAux fuel rest (i + 1)
      | some len => (i, i + len) :: finditerAux fuel ((c :: rest).drop len) (i + len) := rfl

lemma finditerAux_cons_none {c : PosSymbol} {rest : List PosSymbol} (fuel i : Nat)
    (h : matchLen (c :: rest) = none) :
    finditerAux (fuel + 1) (c :: rest) i = finditerAux fuel rest (i + 1) := by
  rw [finditerAux_cons, h]

lemma finditerAux_cons_some {c : PosSymbol} {rest : List PosSymbol} {len : Nat}
    (fuel i : Nat) (h : matchLen (c :: rest) = some len) :
    finditerAux (fuel + 1) (c :: rest) i =
      (i, i + len) :: finditerAux fuel ((c :: rest).drop len) (i + len) := by
  rw [finditerAux_cons, h]

lemma finditerAux_mem {fuel : Nat} : ∀ {s : List PosSymbol} {i : Nat}, s.length ≤ fuel →
    ∀ sp ∈ finditerAux fuel s i,
      i ≤ sp.1 ∧ sp.1 < sp.2 ∧ sp.2 ≤ i + s.length ∧
        matchLen (s.drop (sp.1 - i)) = some (sp.2 - sp.1) := by
  induction fuel with
  | zero =>
    intro s i hle sp hsp
    rw [finditerAux_zero] at hsp
    simp at hsp
  | succ fuel ih =>
    intro s i hle sp hsp
    match s with
    | [] =>
      rw [finditerAux_nil] at hsp
      simp at hsp
    | c :: rest =>
      cases hm : matchLen (c :: rest) with
      | none =>
        rw [finditerAux_cons_none fuel i hm] at hsp
        have hr : rest.length ≤ fuel := by
          simp only [List.length_cons] at hle; omega
        obtain ⟨h1, h2, h3, h4⟩ := ih hr sp hsp
        refine ⟨by omega, h2, by simp only [List.length_cons]; omega, ?_⟩
        have heq : (c :: rest).drop (sp.1 - i) = rest.drop (sp.1 - (i + 1)) := by
          have h5 : sp.1 - i = (sp.1 - (i + 1)) + 1 := by omega
          rw [h5, List.drop_succ_cons]
        rw [heq]
        exact h4
      | some len =>
        rw [finditerAux_cons_some fuel i hm] at hsp
        have hpos := matchLen_pos hm
        have hlen := matchLen_le_length hm
        simp only [List.length_cons] at hlen
        simp only [List.mem_cons] at hsp
        rcases hsp with heq | hsp
        · subst heq
          refine ⟨Nat.le_refl i, by omega, by simp only [List.length_cons]; omega, ?_⟩
          simpa using hm
        · have hdl : ((c :: rest).drop len).length ≤ fuel := by
            simp only [List.length_drop, List.length_cons] at hle ⊢
            omega
          obtain ⟨h1, h2, h3, h4⟩ := ih hdl sp hsp
          simp only [List.length_drop, List.length_cons] at h3
          refine ⟨by omega, h2, by simp only [List.length_cons]; omega, ?_⟩
          have harith : len + (sp.1 - (i + len)) = sp.1 - i := by omega
          rw [List.drop_drop, harith] at h4
          exact h4

lemma finditerAux_pairwise {fuel : Nat} : ∀ {s : List PosSymbol} {i : Nat},
    s.length ≤ fuel →
    (finditerAux fuel s i).Pairwise (fun a b => a.2 ≤ b.1) := by
  induction fuel with
  | zero =>
    intro s i hle
    rw [finditerAux_zero]
    exact List.Pairwise.nil
  | succ fuel ih =>
    intro s i hle
    match s with
    | [] =>
      rw [finditerAux_nil]
      exact List.Pairwise.nil
    | c :: rest =>
      cases hm : matchLen (c :: rest) with
      | none =>
        rw [finditerAux_cons_none fuel i hm]
        exact ih (by simp only [List.length_cons] at hle; omega)
      | some len =>
        rw [finditerAux_cons_some fuel i hm]
        have hdl : ((c :: rest).drop len).length ≤ fuel := by
          have hpos := matchLen_pos hm
          simp only [List.length_drop, List.length_cons] at hle ⊢
          omega
        refine List.Pairwise.cons (fun sp hsp => ?_) (ih hdl)
        exact (finditerAux_mem hdl sp hsp).1

lemma finditerAux_complete {fuel : Nat} : ∀ {s : List PosSymbol} {i p : Nat},
    s.length ≤ fuel → p < s.length → matchLen (s.drop p) ≠ none →
    ∃ sp ∈ finditerAux fuel s i, sp.1 ≤ i + p ∧ i + p < sp.2 := by
  induction fuel with
  | zero =>
    intro s i p hle hp _
    omega
  | succ fuel ih =>
    intro s i p hle hp hmatch
    match s with
    | [] => simp at hp
    | c :: rest =>
      cases hm : matchLen (c :: rest) with
      | none =>
        rw [finditerAux_cons_none fuel i hm]
        match p with
        | 0 =>
          rw [List.drop_zero] at hmatch
          exact absurd hm hmatch
        | p + 1 =>
          have hr : rest.length ≤ fuel := by
            simp only [List.length_cons] at hle; omega
          have hp2 : p < rest.length := by
            simp only [List.length_cons] at hp; omega
          have hm2 : matchLen (rest.drop p) ≠ none := by
            rw [List.drop_succ_cons] at hmatch
            exact hmatch
          obtain ⟨sp, hsp, h1, h2⟩ := ih hr hp2 hm2
          exact ⟨sp, hsp, by omega, by omega⟩
      | some len =>
        rw [finditerAux_cons_some fuel i hm]
        have hpos := matchLen_pos hm
        have hlen := matchLen_le_length hm
        by_cases hpl : p < len
        · exact ⟨(i, i + len), List.mem_cons_self _ _, by omega, by omega⟩
        · push_neg at hpl
          have hdl : ((c :: rest).drop len).length ≤ fuel := by
            simp only [List.length_drop, List.length_cons] at hle ⊢
            omega
          have hp2 : p - len < ((c :: rest).drop len).length := by
            simp only [List.length_drop]
            omega
          have hm2 : matchLen (((c :: rest).drop len).drop (p - len)) ≠ none := by
            rw [List.drop_drop]
            have harith : len + (p - len) = p := by omega
            rw [harith]
            exact hmatch
          obtain ⟨sp, hsp, h1, h2⟩ := ih hdl hp2 hm2
          refine ⟨sp, List.mem_cons_of_mem _ hsp, by omega, by omega⟩

lemma finditerAux_no_noun {fuel : Nat} : ∀ {s : List PosSymbol} {i : Nat},
    PosSymbol.N ∉ s → finditerAux fuel s i = [] := by
  induction fuel with
  | zero =>
    intro s i _
    exact finditerAux_zero s i
  | succ fuel ih =>
    intro s i hnot
    match s with
    | [] => exact finditerAux_nil _ _
    | c :: rest =>
      cases hm : matchLen (c :: rest) with
      | none =>
        rw [finditerAux_cons_none fuel i hm]
        exact ih (fun h => hnot (List.mem_cons_of_mem c h))
      | some len =>
        exact absurd (matchLen_has_noun hm) hnot

lemma matches_le_length {s : List PosSymbol} {len : Nat} (h : Matches s len) :
    len ≤ s.length := by
  obtain ⟨j, hj, hJ, hN⟩ := h
  have h1 := hN (len - 1) (by omega) (by omega)
  have h2 := (List.getElem?_eq_some_iff.mp h1).1
  omega

lemma matchSpan_iff {syms : List PosSymbol} {a b : Nat} :
    MatchSpan syms a b ↔ a < b ∧ Matches (syms.drop a) (b - a) := by
  constructor
  · rintro ⟨hab, hble, j, haj, hjb, hJ, hN⟩
    refine ⟨hab, j - a, by omega, fun k hk => ?_, fun k h1 h2 => ?_⟩
    · rw [List.getElem?_drop]
      exact hJ (a + k) (by omega) (by omega)
    · rw [List.getElem?_drop]
      exact hN (a + k) (by omega) (by omega)
  · rintro ⟨hab, hm⟩
    have hlen := matches_le_length hm
    simp only [List.length_drop] at hlen
    obtain ⟨j, hj, hJ, hN⟩ := hm
    refine ⟨hab, by omega, a + j, by omega, by omega, fun k h1 h2 => ?_, fun k h1 h2 => ?_⟩
    · have h3 := hJ (k - a) (by omega)
      rwa [List.getElem?_drop, Nat.add_sub_cancel' h1] at h3
    · have h3 := hN (k - a) (by omega) (by omega)
      rwa [List.getElem?_drop, Nat.add_sub_cancel' (by omega : a ≤ k)] at h3

lemma finditer_mem {syms : List PosSymbol} :
    ∀ sp ∈ finditer syms,
      MatchSpan syms sp.1 sp.2 ∧ ∀ e, MatchSpan syms sp.1 e → e ≤ sp.2 := by
  intro sp hsp
  obtain ⟨h1, h2, h3, h4⟩ := finditerAux_mem (Nat.le_refl syms.length) sp hsp
  simp only [Nat.sub_zero, Nat.zero_add] at h3 h4
  constructor
  · exact matchSpan_iff.mpr ⟨h2, matchLen_matches h4⟩
  · intro e he
    obtain ⟨hlt, hm⟩ := matchSpan_iff.mp he
    obtain ⟨len2, hl2, hle2⟩ := matches_matchLen hm
    rw [h4] at hl2
    simp only [Option.some.injEq] at hl2
    omega

lemma finditer_pairwise (syms : List PosSymbol) :
    (finditer syms).Pairwise (fun a b => a.2 ≤ b.1) :=
  finditerAux_pairwise (Nat.le_refl syms.length)

lemma finditer_complete {syms : List PosSymbol} {p e : Nat} (h : MatchSpan syms p e) :
    ∃ sp ∈ finditer syms, sp.1 ≤ p ∧ p < sp.2 := by
  obtain ⟨hlt, hm⟩ := matchSpan_iff.mp h
  have hple : e ≤ syms.length := h.2.1
  have hp : p < syms.length := by omega
  have hnn : matchLen (syms.drop p) ≠ none := by
    intro h0
    obtain ⟨len2, hl2, _⟩ := matches_matchLen hm
    rw [h0] at hl2
    exact Option.noConfusion hl2
  obtain ⟨sp, hsp, h1, h2⟩ := finditerAux_complete (Nat.le_refl syms.length) hp hnn
  exact ⟨sp, hsp, by omega, by omega⟩

lemma finditer_no_noun {syms : List PosSymbol} (h : PosSymbol.N ∉ syms) :
    finditer syms = [] :=
  finditerAux_no_noun h

lemma classify_en_length (tokens : List (String × String)) :
    (classify_en tokens).length = tokens.length := by
  simp [classify_en]

lemma classify_ja_length (tokens : List (String × String)) :
    (classify_ja tokens).length = tokens.length := by
  simp [classify_ja]

lemma tokenize_en_fst (tokens : List (String × String)) (pos_filter : List String) :
    (tokenize_en tokens pos_filter).1 =
      (tokens.filter (fun token => decide (token.2 ∈ pos_filter))).map
        (fun token => token.1) := rfl

lemma tokenize_en_snd (tokens : List (String × String)) (pos_filter : List String) :
    (tokenize_en tokens pos_filter).2 =
      (((finditer (classify_en tokens)).map (fun m => sliceTexts tokens m)).filter
        (fun x => decide (x.length ≤ 3))).map
          (fun phrase => String.intercalate "_" phrase) := rfl

lemma tokenize_ja_fst (morphemes : List (String × String)) (pos_filter : List String) :
    (tokenize_ja morphemes pos_filter).1 =
      ((sudachi_tokens morphemes).filter (fun token => decide (token.2 ∈ pos_filter))).map
        (fun token => token.1) := rfl

lemma tokenize_ja_snd (morphemes : List (String × String)) (pos_filter : List String) :
    (tokenize_ja morphemes pos_filter).2 =
      (((finditer (classify_ja (sudachi_tokens morphemes))).map
          (fun m => sliceTexts (sudachi_tokens morphemes) m)).filter
        (fun x => decide (x.length ≤ 3))).map
          (fun phrase => String.intercalate "_" phrase) := rfl

lemma sliceTexts_length {tokens : List (String × String)} {sp : Nat × Nat}
    (h1 : sp.1 < sp.2) (h2 : sp.2 ≤ tokens.length) :
    (sliceTexts tokens sp).length = sp.2 - sp.1 := by
  simp only [sliceTexts, List.length_map, List.length_take, List.length_drop]
  omega

lemma phrases_pipeline (tokens : List (String × String)) (syms : List PosSymbol)
    (h : syms.length = tokens.length) :
    (((finditer syms).map (fun m => sliceTexts tokens m)).filter
        (fun x => decide (x.length ≤ 3))).map
          (fun phrase => String.intercalate "_" phrase) =
      ((finditer syms).filter (fun sp => decide (sp.2 - sp.1 ≤ 3))).map
        (fun sp => String.intercalate "_" (sliceTexts tokens sp)) := by
  rw [List.filter_map, List.map_map]
  have hf : (finditer syms).filter
      ((fun x => decide (x.length ≤ 3)) ∘ (fun m => sliceTexts tokens m)) =
      (finditer syms).filter (fun sp => decide (sp.2 - sp.1 ≤ 3)) := by
    apply List.filter_congr
    intro sp hsp
    have hb := (finditer_mem sp hsp).1
    have hl : (sliceTexts tokens sp).length = sp.2 - sp.1 :=
      sliceTexts_length hb.1 (h ▸ hb.2.1)
    simp only [Function.comp]
    exact decide_eq_decide.mpr (by rw [hl])
  rw [hf]
  simp [Function.comp]

lemma phrases_spec (tokens : List (String × String)) (syms : List PosSymbol)
    (h : syms.length = tokens.length) :
    (∀ ph ∈ (((finditer syms).map (fun m => sliceTexts tokens m)).filter
          (fun x => decide (x.length ≤ 3))).map
            (fun phrase => String.intercalate "_" phrase),
        ∃ sp ∈ finditer syms, sp.2 - sp.1 ≤ 3 ∧ (sliceTexts tokens sp).length ≤ 3 ∧
          ph = String.intercalate "_" (sliceTexts tokens sp)) ∧
    ((((finditer syms).map (fun m => sliceTexts tokens m)).filter
          (fun x => decide (x.length ≤ 3))).map
            (fun phrase => String.intercalate "_" phrase)).length =
      ((finditer syms).filter (fun sp => decide (sp.2 - sp.1 ≤ 3))).length := by
  rw [phrases_pipeline tokens syms h]
  constructor
  · intro ph hph
    obtain ⟨sp, hspf, hjoin⟩ := List.mem_map.mp hph
    obtain ⟨hsp, hw⟩ := List.mem_filter.mp hspf
    have hw2 : sp.2 - sp.1 ≤ 3 := by simpa using hw
    have hb := (finditer_mem sp hsp).1
    have hl := sliceTexts_length hb.1 (h ▸ hb.2.1)
    exact ⟨sp, hsp, hw2, by omega, hjoin.symm⟩
  · rw [List.length_map]

/-- C1: for every input token sequence, the phrase spans produced by the
`J*N+` scan are exactly the leftmost, non-overlapping, greedy matches over
the classified symbol sequence: every emitted span is a `J*N+` match
(hence contains at least one Noun symbol) and is the longest match at its
start position; the spans are emitted left to right and matching resumes
at or after the end of the previous match; every position where the
pattern can match is covered by an emitted span (so each match starts at
the first unconsumed matchable position); if no symbol is a Noun the
phrase list is empty, and an empty token sequence yields an empty phrase
list. -/
theorem c1_leftmost_greedy_matches (syms : List PosSymbol)
    (tokens morphemes : List (String × String)) (pos_filter : List String) :
    (∀ sp ∈ finditer syms,
        MatchSpan syms sp.1 sp.2 ∧ ∀ e, MatchSpan syms sp.1 e → e ≤ sp.2) ∧
    (finditer syms).Pairwise (fun a b => a.2 ≤ b.1) ∧
    (∀ p e, MatchSpan syms p e → ∃ sp ∈ finditer syms, sp.1 ≤ p ∧ p < sp.2) ∧
    (PosSymbol.N ∉ classify_en tokens → (tokenize_en tokens pos_filter).2 = []) ∧
    (PosSymbol.N ∉ classify_ja (sudachi_tokens morphemes) →
      (tokenize_ja morphemes pos_filter).2 = []) ∧
    (tokenize_en [] pos_filter).2 = [] ∧
    (tokenize_ja [] pos_filter).2 = [] := by
  refine ⟨finditer_mem, finditer_pairwise syms, fun p e hpe => finditer_complete hpe,
    ?_, ?_, rfl, rfl⟩
  · intro hno
    rw [tokenize_en_snd, finditer_no_noun hno]
    rfl
  · intro hno
    rw [tokenize_ja_snd, finditer_no_noun hno]
    rfl

/-- Witness for C1 at the concrete symbol sequence `J N O N`: position 0
admits a match, so some emitted span covers it. -/
theorem c1_leftmost_greedy_matches_witness :
    ∃ sp ∈ finditer [PosSymbol.J, PosSymbol.N, PosSymbol.O, PosSymbol.N],
      sp.1 ≤ 0 ∧ 0 < sp.2 := by
  refine (c1_leftmost_greedy_matches
    [PosSymbol.J, PosSymbol.N, PosSymbol.O, PosSymbol.N] [] [] []).2.2.1 0 2 ?_
  refine ⟨by omega, by simp, 1, by omega, by omega, ?_, ?_⟩ <;>
    (intro k h1 h2; interval_cases k; rfl)

/-- C4: no two spans returned by the extraction overlap in token
position: both the raw match spans and the length-filtered spans that
produce the returned phrases have pairwise disjoint index ranges. -/
theorem c4_non_overlap (syms : List PosSymbol) :
    (finditer syms).Pairwise
      (fun a b => ∀ k, a.1 ≤ k → k < a.2 → ¬ (b.1 ≤ k ∧ k < b.2)) ∧
    ((finditer syms).filter (fun sp => decide (sp.2 - sp.1 ≤ 3))).Pairwise
      (fun a b => ∀ k, a.1 ≤ k → k < a.2 → ¬ (b.1 ≤ k ∧ k < b.2)) := by
  have h2 := (finditer_pairwise syms).imp
    (fun {a b} hab => (fun k h1 hk2 hk3 => by omega :
      ∀ k, a.1 ≤ k → k < a.2 → ¬ (b.1 ≤ k ∧ k < b.2)))
  exact ⟨h2, h2.filter _⟩

/-- Witness for C4 at the concrete symbol sequence `N J N O N N`. -/
theorem c4_non_overlap_witness :
    (finditer [PosSymbol.N, PosSymbol.J, PosSymbol.N, PosSymbol.O,
        PosSymbol.N, PosSymbol.N]).Pairwise
      (fun a b => ∀ k, a.1 ≤ k → k < a.2 → ¬ (b.1 ≤ k ∧ k < b.2)) :=
  (c4_non_overlap [PosSymbol.N, PosSymbol.J, PosSymbol.N, PosSymbol.O,
    PosSymbol.N, PosSymbol.N]).1

/-- C2: with the length limit of 3, every returned phrase is the
underscore-join of a full matched span of at most 3 tokens, and the
number of returned phrases equals the number of matched spans of width at
most 3 — so a matched span wider than 3 contributes nothing to the
output (it is dropped entirely, neither truncated nor split). -/
theorem c2_length_filter (tokens morphemes : List (String × String))
    (pos_filter : List String) :
    (∀ ph ∈ (tokenize_en tokens pos_filter).2,
        ∃ sp ∈ finditer (classify_en tokens), sp.2 - sp.1 ≤ 3 ∧
          (sliceTexts tokens sp).length ≤ 3 ∧
          ph = String.intercalate "_" (sliceTexts tokens sp)) ∧
    ((tokenize_en tokens pos_filter).2.length =
      ((finditer (classify_en tokens)).filter
        (fun sp => decide (sp.2 - sp.1 ≤ 3))).length) ∧
    (∀ ph ∈ (tokenize_ja morphemes pos_filter).2,
        ∃ sp ∈ finditer (classify_ja (sudachi_tokens morphemes)), sp.2 - sp.1 ≤ 3 ∧
          (sliceTexts (sudachi_tokens morphemes) sp).length ≤ 3 ∧
          ph = String.intercalate "_" (sliceTexts (sudachi_tokens morphemes) sp)) ∧
    ((tokenize_ja morphemes pos_filter).2.length =
      ((finditer (classify_ja (sudachi_tokens morphemes))).filter
        (fun sp => decide (sp.2 - sp.1 ≤ 3))).length) := by
  have hen := phrases_spec tokens (classify_en tokens) (classify_en_length tokens)
  have hja := phrases_spec (sudachi_tokens morphemes) (classify_ja (sudachi_tokens morphemes))
    (classify_ja_length (sudachi_tokens morphemes))
  rw [tokenize_en_snd, tokenize_ja_snd]
  exact ⟨hen.1, hen.2, hja.1, hja.2⟩

/-- Witness for C2: `quick/JJ fox/NN` yields the phrase `quick_fox` from a
span of width 2 ≤ 3, while four adjectives before a noun (span width 5)
yield no phrase at all. -/
theorem c2_length_filter_witness :
    (∃ sp ∈ finditer (classify_en [("quick", "JJ"), ("fox", "NN")]), sp.2 - sp.1 ≤ 3 ∧
        (sliceTexts [("quick", "JJ"), ("fox", "NN")] sp).length ≤ 3 ∧
        "quick_fox" = String.intercalate "_"
          (sliceTexts [("quick", "JJ"), ("fox", "NN")] sp)) ∧
    (tokenize_en [("big", "JJ"), ("red", "JJ"), ("old", "JJ"), ("round", "JJ"),
        ("ball", "NN")] ["NN"]).2 = [] ∧
    finditer (classify_en [("big", "JJ"), ("red", "JJ"), ("old", "JJ"), ("round", "JJ"),
        ("ball", "NN")]) = [(0, 5)] :=
  ⟨(c2_length_filter [("quick", "JJ"), ("fox", "NN")] [] []).1 "quick_fox" (by decide),
   rfl, rfl⟩

/-- C3: the tag classifier is a pure total function on POS tag strings:
for English exactly `JJ`, `JJR`, `JJS` map to Adjective (`J`), exactly
`NN`, `NNS`, `NNP`, `NNPS` map to Noun (`N`), and every other string maps
to Other (`O`); for Japanese exactly `形容詞` maps to Adjective, exactly
`名詞` maps to Noun, and every other string maps to Other. -/
theorem c3_tag_classifier (pos : String) :
    (anonymize_pos_en pos = PosSymbol.J ↔ (pos = "JJ" ∨ pos = "JJR" ∨ pos = "JJS")) ∧
    (anonymize_pos_en pos = PosSymbol.N ↔
      (pos = "NN" ∨ pos = "NNS" ∨ pos = "NNP" ∨ pos = "NNPS")) ∧
    (anonymize_pos_en pos = PosSymbol.O ↔
      ¬ ((pos = "JJ" ∨ pos = "JJR" ∨ pos = "JJS") ∨
         (pos = "NN" ∨ pos = "NNS" ∨ pos = "NNP" ∨ pos = "NNPS"))) ∧
    (anonymize_pos_ja pos = PosSymbol.J ↔ pos = "形容詞") ∧
    (anonymize_pos_ja pos = PosSymbol.N ↔ pos = "名詞") ∧
    (anonymize_pos_ja pos = PosSymbol.O ↔ (pos ≠ "形容詞" ∧ pos ≠ "名詞")) := by
  have hx : (pos = "JJ" ∨ pos = "JJR" ∨ pos = "JJS") →
      ¬ (pos = "NN" ∨ pos = "NNS" ∨ pos = "NNP" ∨ pos = "NNPS") := by
    rintro (rfl | rfl | rfl) <;> simp
  have hy : pos = "形容詞" → pos ≠ "名詞" := by
    rintro rfl
    simp
  unfold anonymize_pos_en anonymize_pos_ja
  split_ifs <;> simp_all

/-- Witness for C3 at concrete tag strings. -/
theorem c3_tag_classifier_witness :
    anonymize_pos_en "JJ" = PosSymbol.J ∧ anonymize_pos_ja "名詞" = PosSymbol.N :=
  ⟨(c3_tag_classifier "JJ").1.mpr (Or.inl rfl),
   (c3_tag_classifier "名詞").2.2.2.2.1.mpr rfl⟩

/-- C5: the phrase list is exactly the in-order image of the kept
(width ≤ 3) match spans under "join the span's token texts with an
underscore": each phrase's token texts keep their original sentence
order, the phrase list follows the left-to-right order of the matches
(their start positions are strictly increasing), and no deduplication
happens (one output entry per kept span). -/
theorem c5_order_and_duplicates (tokens morphemes : List (String × String))
    (pos_filter : List String) :
    ((tokenize_en tokens pos_filter).2 =
      ((finditer (classify_en tokens)).filter (fun sp => decide (sp.2 - sp.1 ≤ 3))).map
        (fun sp => String.intercalate "_" (sliceTexts tokens sp))) ∧
    ((finditer (classify_en tokens)).filter
        (fun sp => decide (sp.2 - sp.1 ≤ 3))).Pairwise (fun a b => a.1 < b.1) ∧
    ((tokenize_ja morphemes pos_filter).2 =
      ((finditer (classify_ja (sudachi_tokens morphemes))).filter
          (fun sp => decide (sp.2 - sp.1 ≤ 3))).map
        (fun sp => String.intercalate "_" (sliceTexts (sudachi_tokens morphemes) sp))) ∧
    ((finditer (classify_ja (sudachi_tokens morphemes))).filter
        (fun sp => decide (sp.2 - sp.1 ≤ 3))).Pairwise (fun a b => a.1 < b.1) := by
  have hlt : ∀ syms : List PosSymbol,
      (finditer syms).Pairwise (fun a b : Nat × Nat => a.1 < b.1) := by
    intro syms
    refine (finditer_pairwise syms).imp_of_mem ?_
    intro a b ha _ hab
    have h1 := (finditer_mem a ha).1.1
    omega
  refine ⟨?_, (hlt _).filter _, ?_, (hlt _).filter _⟩
  · rw [tokenize_en_snd,
      phrases_pipeline tokens (classify_en tokens) (classify_en_length tokens)]
  · rw [tokenize_ja_snd,
      phrases_pipeline (sudachi_tokens morphemes) (classify_ja (sudachi_tokens morphemes))
        (classify_ja_length (sudachi_tokens morphemes))]

/-- Witness for C5: a sentence with two separate occurrences of the same
noun keeps both phrase entries, in left-to-right order. -/
theorem c5_order_and_duplicates_witness :
    ((tokenize_en [("fox", "NN"), ("eats", "VBZ"), ("fox", "NN")] []).2 =
      ((finditer (classify_en [("fox", "NN"), ("eats", "VBZ"), ("fox", "NN")])).filter
          (fun sp => decide (sp.2 - sp.1 ≤ 3))).map
        (fun sp => String.intercalate "_"
          (sliceTexts [("fox", "NN"), ("eats", "VBZ"), ("fox", "NN")] sp))) ∧
    (tokenize_en [("fox", "NN"), ("eats", "VBZ"), ("fox", "NN")] []).2 =
      ["fox", "fox"] :=
  ⟨(c5_order_and_duplicates [("fox", "NN"), ("eats", "VBZ"), ("fox", "NN")] [] []).1, rfl⟩

/-- C6: classifying a token sequence yields a symbol sequence of exactly
equal length, index-aligned: for every index the symbol is the
classification of the token's POS tag at the same index (stated for the
English pipeline and for the Japanese pipeline on its filtered tokens). -/
theorem c6_alignment (tokens morphemes : List (String × String)) :
    (classify_en tokens).length = tokens.length ∧
    (∀ i : Nat, (classify_en tokens)[i]? =
      (tokens[i]?).map (fun token => anonymize_pos_en token.2)) ∧
    (classify_ja (sudachi_tokens morphemes)).length = (sudachi_tokens morphemes).length ∧
    (∀ i : Nat, (classify_ja (sudachi_tokens morphemes))[i]? =
      ((sudachi_tokens morphemes)[i]?).map (fun token => anonymize_pos_ja token.2)) := by
  refine ⟨classify_en_length tokens, fun i => ?_, classify_ja_length _, fun i => ?_⟩ <;>
    simp [classify_en, classify_ja]

/-- Witness for C6 at a concrete token list. -/
theorem c6_alignment_witness :
    (classify_en [("quick", "JJ"), ("fox", "NN")]).length =
      ([("quick", "JJ"), ("fox", "NN")] : List (String × String)).length ∧
    (classify_en [("quick", "JJ"), ("fox", "NN")])[1]? =
      (([("quick", "JJ"), ("fox", "NN")] : List (String × String))[1]?).map
        (fun token => anonymize_pos_en token.2) :=
  ⟨(c6_alignment [("quick", "JJ"), ("fox", "NN")] []).1,
   (c6_alignment [("quick", "JJ"), ("fox", "NN")] []).2.1 1⟩

/-- C7: the token filter returns the text of every token whose POS tag is
in the caller-supplied allow-set, in original order (the kept tokens form
a sublist of the input), and omits exactly the tokens whose tag is not in
the set; it is a total function with no failure modes. -/
theorem c7_token_filter (tokens morphemes : List (String × String))
    (pos_filter : List String) :
    ((tokenize_en tokens pos_filter).1 =
      (tokens.filter (fun token => decide (token.2 ∈ pos_filter))).map
        (fun token => token.1)) ∧
    (∀ t ∈ tokens, t.2 ∈ pos_filter → t.1 ∈ (tokenize_en tokens pos_filter).1) ∧
    (∀ x ∈ (tokenize_en tokens pos_filter).1,
      ∃ t ∈ tokens, t.2 ∈ pos_filter ∧ t.1 = x) ∧
    ((tokens.filter (fun token => decide (token.2 ∈ pos_filter))).Sublist tokens) ∧
    ((tokenize_ja morphemes pos_filter).1 =
      ((sudachi_tokens morphemes).filter (fun token => decide (token.2 ∈ pos_filter))).map
        (fun token => token.1)) ∧
    (∀ t ∈ sudachi_tokens morphemes, t.2 ∈ pos_filter →
      t.1 ∈ (tokenize_ja morphemes pos_filter).1) ∧
    (∀ x ∈ (tokenize_ja morphemes pos_filter).1,
      ∃ t ∈ sudachi_tokens morphemes, t.2 ∈ pos_filter ∧ t.1 = x) := by
  refine ⟨rfl, ?_, ?_, List.filter_sublist tokens, rfl, ?_, ?_⟩
  · intro t ht hpf
    rw [tokenize_en_fst]
    exact List.mem_map_of_mem _ (List.mem_filter.mpr ⟨ht, by simpa using hpf⟩)
  · intro x hx
    rw [tokenize_en_fst] at hx
    obtain ⟨t, htf, hx⟩ := List.mem_map.mp hx
    obtain ⟨ht, hp⟩ := List.mem_filter.mp htf
    exact ⟨t, ht, by simpa using hp, hx⟩
  · intro t ht hpf
    rw [tokenize_ja_fst]
    exact List.mem_map_of_mem _ (List.mem_filter.mpr ⟨ht, by simpa using hpf⟩)
  · intro x hx
    rw [tokenize_ja_fst] at hx
    obtain ⟨t, htf, hx⟩ := List.mem_map.mp hx
    obtain ⟨ht, hp⟩ := List.mem_filter.mp htf
    exact ⟨t, ht, by simpa using hp, hx⟩

/-- Witness for C7: with allow-set `{JJ}`, `quick/JJ` is kept and the only
output is its text. -/
theorem c7_token_filter_witness :
    "quick" ∈ (tokenize_en [("quick", "JJ"), ("is", "VBZ")] ["JJ"]).1 :=
  (c7_token_filter [("quick", "JJ"), ("is", "VBZ")] [] ["JJ"]).2.1
    ("quick", "JJ") (by simp) (by simp)

lemma sudachi_tokens_idem (morphemes : List (String × String)) :
    sudachi_tokens (sudachi_tokens morphemes) = sudachi_tokens morphemes := by
  simp [sudachi_tokens, List.filter_filter]

/-- C8: the Japanese tokenizer's token sequence contains no token whose
surface text is `BOS`, `EOS`, or empty; every other morpheme is kept, in
order, and the whole pipeline (classification and phrase matching)
operates on the filtered sequence only. -/
theorem c8_sentinel_discard (morphemes : List (String × String))
    (pos_filter : List String) :
    (∀ t ∈ sudachi_tokens morphemes, t.1 ≠ "BOS" ∧ t.1 ≠ "EOS" ∧ t.1 ≠ "") ∧
    (∀ m ∈ morphemes, m.1 ≠ "BOS" → m.1 ≠ "EOS" → m.1 ≠ "" →
      m ∈ sudachi_tokens morphemes) ∧
    ((sudachi_tokens morphemes).Sublist morphemes) ∧
    tokenize_ja morphemes pos_filter = tokenize_ja (sudachi_tokens morphemes) pos_filter := by
  refine ⟨?_, ?_, List.filter_sublist morphemes, ?_⟩
  · intro t ht
    have hp := (List.mem_filter.mp ht).2
    simp only [decide_eq_true_eq] at hp
    exact ⟨fun h => hp (Or.inl (Or.inr h)), fun h => hp (Or.inl (Or.inl h)),
      fun h => hp (Or.inr h)⟩
  · intro m hm h1 h2 h3
    refine List.mem_filter.mpr ⟨hm, ?_⟩
    simp only [decide_eq_true_eq]
    rintro ((h | h) | h) <;> contradiction
  · unfold tokenize_ja
    rw [sudachi_tokens_idem]

/-- Witness for C8 at the spec's Japanese scenario: the sentinels are
stripped, `美しい/形容詞` survives, and the phrase `美しい_花` results. -/
theorem c8_sentinel_discard_witness :
    ("美しい", "形容詞") ∈ sudachi_tokens
      [("BOS", "補助記号"), ("美しい", "形容詞"), ("花", "名詞"), ("EOS", "補助記号")] ∧
    (tokenize_ja [("BOS", "補助記号"), ("美しい", "形容詞"), ("花", "名詞"),
      ("EOS", "補助記号")] ["名詞", "形容詞"]).2 = ["美しい_花"] :=
  ⟨(c8_sentinel_discard [("BOS", "補助記号"), ("美しい", "形容詞"), ("花", "名詞"),
      ("EOS", "補助記号")] ["名詞", "形容詞"]).2.1 ("美しい", "形容詞")
    (by simp) (by simp) (by simp) (by simp), rfl⟩

/-- C10: for every split-mode string other than `A`, `B`, `C`, the
`SudachiTokenizer` constructor completes without error and leaves the
split-mode attribute unset (`none`); the missing attribute only surfaces
later, as an `AttributeError`, when `tokenize` is called on that
instance. -/
theorem c10_unrecognized_mode (sudachi_mode : String)
    (hA : sudachi_mode ≠ "A") (hB : sudachi_mode ≠ "B") (hC : sudachi_mode ≠ "C") :
    (SudachiTokenizer.init sudachi_mode).sudachi_mode = none ∧
    ∀ (morphemes : List (String × String)) (pos_filter : List String),
      SudachiTokenizer.tokenize_checked (SudachiTokenizer.init sudachi_mode)
          morphemes pos_filter =
        Except.error PyError.AttributeError := by
  have h : SudachiTokenizer.init sudachi_mode = ⟨none⟩ := by
    unfold SudachiTokenizer.init
    simp [hA, hB, hC]
  rw [h]
  exact ⟨rfl, fun _ _ => rfl⟩

/-- Witness for C10 at the concrete unrecognized mode string `D`. -/
theorem c10_unrecognized_mode_witness :
    (SudachiTokenizer.init "D").sudachi_mode = none ∧
    SudachiTokenizer.tokenize_checked (SudachiTokenizer.init "D")
        [("花", "名詞")] ["名詞"] =
      Except.error PyError.AttributeError := by
  have h := c10_unrecognized_mode "D" (by decide) (by decide) (by decide)
  exact ⟨h.1, h.2 [("花", "名詞")] ["名詞"]⟩
